import Mathlib

/-!
Verification development for a small HTTP/WebSocket server written in Rust.
Bytes are modelled as natural numbers (values below 256); byte strings as
lists of naturals; machine-integer truncation is made explicit with `% 2^w`.
Fallible operations return `Except`.
-/

set_option maxRecDepth 10000

/-- Big-endian byte encoding of a natural number into `k` bytes
(models the `put_u16` / `put_u64` / `to_be_bytes` operations, which
truncate to the given width). -/
def beBytes : Nat → Nat → List Nat
  | 0, _ => []
  | k + 1, n => beBytes k (n / 256) ++ [n % 256]

/-- Big-endian value of a byte list (models `get_u16` / `get_u64` /
`u16::from_be_bytes`). -/
def beVal (l : List Nat) : Nat :=
  l.foldl (fun acc b => acc * 256 + b) 0

/-- XOR-masking pass over a payload: byte at overall index `i` is XORed with
`key[i % 4]`.  This is the unmasking loop of `WebSocketFrame::parse`. -/
def maskWith (key : List Nat) (i : Nat) : List Nat → List Nat
  | [] => []
  | b :: rest => (b ^^^ key.getD (i % 4) 0) :: maskWith key (i + 1) rest

/-- Whether a byte is a UTF-8 continuation byte (0x80-0xBF). -/
def utf8Cont (b : Nat) : Bool :=
  decide (128 ≤ b ∧ b ≤ 191)

/-- Strict UTF-8 validity of a byte sequence, as checked by Rust's
`String::from_utf8` (rejects overlong forms, surrogates and values above
U+10FFFF). -/
def utf8Valid : List Nat → Bool
  | [] => true
  | b :: rest =>
    if b < 128 then utf8Valid rest
    else
      match rest with
      | [] => false
      | c :: rest2 =>
        if 194 ≤ b ∧ b ≤ 223 then
          if utf8Cont c then utf8Valid rest2 else false
        else
          match rest2 with
          | [] => false
          | d :: rest3 =>
            if b = 224 then
              if (160 ≤ c ∧ c ≤ 191) ∧ utf8Cont d then utf8Valid rest3 else false
            else if (225 ≤ b ∧ b ≤ 236) ∨ b = 238 ∨ b = 239 then
              if utf8Cont c ∧ utf8Cont d then utf8Valid rest3 else false
            else if b = 237 then
              if (128 ≤ c ∧ c ≤ 159) ∧ utf8Cont d then utf8Valid rest3 else false
            else
              match rest3 with
              | [] => false
              | e :: rest4 =>
                if b = 240 then
                  if (144 ≤ c ∧ c ≤ 191) ∧ utf8Cont d ∧ utf8Cont e then utf8Valid rest4 else false
                else if 241 ≤ b ∧ b ≤ 243 then
                  if utf8Cont c ∧ utf8Cont d ∧ utf8Cont e then utf8Valid rest4 else false
                else if b = 244 then
                  if (128 ≤ c ∧ c ≤ 143) ∧ utf8Cont d ∧ utf8Cont e then utf8Valid rest4 else false
                else false

/-- ASCII bytes of a Lean string literal (used for test vectors and fixed
protocol strings; all such strings in this development are pure ASCII). -/
def asciiBytes (s : String) : List Nat :=
  s.data.map Char.toNat

/-- The WebSocket opcode enumeration from `src/websocket/frame.rs`. -/
inductive OpCode
  | Continuation
  | Text
  | Binary
  | Close
  | Ping
  | Pong
deriving DecidableEq

/-- `impl From<u8> for OpCode`: the low 4 bits select the opcode and every
unrecognized value maps to `Close`. -/
def OpCode.fromByte (b : Nat) : OpCode :=
  match b % 16 with
  | 0 => OpCode.Continuation
  | 1 => OpCode.Text
  | 2 => OpCode.Binary
  | 8 => OpCode.Close
  | 9 => OpCode.Ping
  | 10 => OpCode.Pong
  | _ => OpCode.Close

/-- The numeric discriminant of an opcode (`opcode as u8` in Rust). -/
def OpCode.toByte : OpCode → Nat
  | OpCode.Continuation => 0
  | OpCode.Text => 1
  | OpCode.Binary => 2
  | OpCode.Close => 8
  | OpCode.Ping => 9
  | OpCode.Pong => 10

/-- `OpCode::is_control`. -/
def OpCode.is_control : OpCode → Bool
  | OpCode.Close => true
  | OpCode.Ping => true
  | OpCode.Pong => true
  | _ => false

/-- Decoded WebSocket frames from `src/websocket/frame.rs`.  A `Text` payload
is carried as its UTF-8 bytes (Rust holds a `String`, whose bytes these are);
a `Close` reason is likewise carried as raw bytes (Rust decodes them with
`String::from_utf8_lossy`, which does not affect any claim proved here). -/
inductive WebSocketFrame
  | Text (payload : List Nat)
  | Binary (payload : List Nat)
  | Close (info : Option (Nat × List Nat))
  | Ping (payload : List Nat)
  | Pong (payload : List Nat)
deriving DecidableEq

/-- The frame-parse error enumeration from `src/websocket/frame.rs`. -/
inductive ParseError
  | Incomplete
  | InvalidUtf8
  | ControlFrameTooLarge
  | UnmaskedClientFrame
  | InvalidCloseCode
deriving DecidableEq

instance instDecEqExcept {ε α : Type} [DecidableEq ε] [DecidableEq α] :
    DecidableEq (Except ε α) := fun x y =>
  match x, y with
  | Except.ok a, Except.ok b =>
    if h : a = b then Decidable.isTrue (by rw [h])
    else Decidable.isFalse (fun hh => by cases hh; exact h rfl)
  | Except.error a, Except.error b =>
    if h : a = b then Decidable.isTrue (by rw [h])
    else Decidable.isFalse (fun hh => by cases hh; exact h rfl)
  | Except.ok _, Except.error _ => Decidable.isFalse (fun hh => Except.noConfusion hh)
  | Except.error _, Except.ok _ => Decidable.isFalse (fun hh => Except.noConfusion hh)

/-- `is_valid_close_code` from `src/websocket/frame.rs`: RFC 6455 ranges
1000-1003, 1007-1011 and 3000-4999. -/
def is_valid_close_code (code : Nat) : Bool :=
  decide ((1000 ≤ code ∧ code ≤ 1003) ∨ (1007 ≤ code ∧ code ≤ 1011) ∨
    (3000 ≤ code ∧ code ≤ 4999))

/-- Final stage of `WebSocketFrame::parse`: build the frame value from the
opcode and the unmasked payload (the `match opcode` block at the end of
`parse`).  `consumed` is threaded through unchanged. -/
def decodePayload (opcode : OpCode) (payload : List Nat) (consumed : Nat) :
    Except ParseError (WebSocketFrame × Nat) :=
  match opcode with
  | OpCode.Text =>
    if utf8Valid payload then Except.ok (WebSocketFrame.Text payload, consumed)
    else Except.error ParseError.InvalidUtf8
  | OpCode.Binary => Except.ok (WebSocketFrame.Binary payload, consumed)
  | OpCode.Close =>
    if 2 ≤ payload.length then
      let code := payload.getD 0 0 * 256 + payload.getD 1 0
      if is_valid_close_code code then
        Except.ok (WebSocketFrame.Close (some (code, payload.drop 2)), consumed)
      else Except.error ParseError.InvalidCloseCode
    else Except.ok (WebSocketFrame.Close none, consumed)
  | OpCode.Ping => Except.ok (WebSocketFrame.Ping payload, consumed)
  | OpCode.Pong => Except.ok (WebSocketFrame.Pong payload, consumed)
  | OpCode.Continuation => Except.error ParseError.Incomplete

/-- `WebSocketFrame::parse` from `src/websocket/frame.rs`, on a byte list.
Returns the decoded frame and the number of consumed bytes.  The mask key is
always read because the function has already rejected unmasked frames. -/
def WebSocketFrame.parse (data : List Nat) :
    Except ParseError (WebSocketFrame × Nat) :=
  match data with
  | b0 :: b1 :: rest =>
    let opcode := OpCode.fromByte b0
    if b1 &&& 128 = 0 then Except.error ParseError.UnmaskedClientFrame
    else
      let len7 := b1 &&& 127
      let extLen := if len7 = 126 then 2 else if len7 = 127 then 8 else 0
      if rest.length < extLen then Except.error ParseError.Incomplete
      else
        let payloadLength :=
          if len7 = 126 then beVal (rest.take 2)
          else if len7 = 127 then beVal (rest.take 8)
          else len7
        if opcode.is_control = true ∧ 125 < payloadLength then
          Except.error ParseError.ControlFrameTooLarge
        else
          let afterExt := rest.drop extLen
          if afterExt.length < 4 then Except.error ParseError.Incomplete
          else
            let mask := afterExt.take 4
            let afterMask := afterExt.drop 4
            if afterMask.length < payloadLength then Except.error ParseError.Incomplete
            else
              decodePayload opcode (maskWith mask 0 (afterMask.take payloadLength))
                (2 + extLen + 4 + payloadLength)
  | _ => Except.error ParseError.Incomplete

/-- The length byte written by `WebSocketFrame::write_frame` (values 0-125
literal, 126 and 127 for the two extended forms). -/
def lenByte (L : Nat) : Nat :=
  if L < 126 then L else if L < 65536 then 126 else 127

/-- The extended-length bytes written by `WebSocketFrame::write_frame`. -/
def lenExt (L : Nat) : List Nat :=
  if L < 126 then [] else if L < 65536 then beBytes 2 L else beBytes 8 L

/-- `WebSocketFrame::write_frame`: FIN set, RSV zero, opcode in the low
nibble, then the length encoding, then the raw unmasked payload. -/
def WebSocketFrame.write_frame (opcode : OpCode) (payload : List Nat) : List Nat :=
  (128 ||| opcode.toByte) :: lenByte payload.length :: (lenExt payload.length ++ payload)

/-- `WebSocketFrame::to_bytes`: encode a frame for the server-to-client
direction (never masked).  A `Close` with a (code, reason) pair emits the
big-endian code followed by the reason bytes; a codeless `Close` emits an
empty payload. -/
def WebSocketFrame.to_bytes : WebSocketFrame → List Nat
  | WebSocketFrame.Text p => WebSocketFrame.write_frame OpCode.Text p
  | WebSocketFrame.Binary p => WebSocketFrame.write_frame OpCode.Binary p
  | WebSocketFrame.Close none => WebSocketFrame.write_frame OpCode.Close []
  | WebSocketFrame.Close (some (code, reason)) =>
    WebSocketFrame.write_frame OpCode.Close (beBytes 2 code ++ reason)
  | WebSocketFrame.Ping p => WebSocketFrame.write_frame OpCode.Ping p
  | WebSocketFrame.Pong p => WebSocketFrame.write_frame OpCode.Pong p

/-- Modelled from the spec: the client-masking convention of RFC 6455,
which the repository's server code never performs itself (it only unmasks).
Given a server-form (unmasked) encoding, set the mask bit of the second
byte, insert a 4-byte key after the length bytes, and XOR-mask the payload
with that key. -/
def clientMask (key : List Nat) (enc : List Nat) : List Nat :=
  match enc with
  | b0 :: b1 :: rest =>
    let len7 := b1 % 128
    let extLen := if len7 = 126 then 2 else if len7 = 127 then 8 else 0
    b0 :: (b1 ||| 128) :: (rest.take extLen ++ key ++ maskWith key 0 (rest.drop extLen))
  | other => other

/-- Well-formedness of a data frame for the round-trip statement: the frame
is of kind Text, Binary, Ping or Pong; a Text payload is valid UTF-8 (the
Rust `String` type invariant); Ping and Pong payloads fit in a control frame
(the spec's data-model invariant); lengths fit in a `u64`. -/
def dataFrameOk : WebSocketFrame → Bool
  | WebSocketFrame.Text p => utf8Valid p && decide (p.length < 18446744073709551616)
  | WebSocketFrame.Binary p => decide (p.length < 18446744073709551616)
  | WebSocketFrame.Ping p => decide (p.length ≤ 125)
  | WebSocketFrame.Pong p => decide (p.length ≤ 125)
  | WebSocketFrame.Close _ => false

/-- ASCII lowercase of a character (models Rust `to_lowercase` on the ASCII
header values this server compares; full Unicode case mapping is out of
scope). -/
def lowerChar (c : Char) : Char :=
  if 65 ≤ c.toNat ∧ c.toNat ≤ 90 then Char.ofNat (c.toNat + 32) else c

/-- ASCII uppercase of a character (models Rust `to_uppercase` on method
tokens). -/
def upperChar (c : Char) : Char :=
  if 97 ≤ c.toNat ∧ c.toNat ≤ 122 then Char.ofNat (c.toNat - 32) else c

/-- ASCII lowercase of a string. -/
def lowerAscii (s : String) : String :=
  String.mk (s.data.map lowerChar)

/-- ASCII uppercase of a string. -/
def upperAscii (s : String) : String :=
  String.mk (s.data.map upperChar)

/-- Whether `needle` is a prefix of `hay` (character lists). -/
def isPrefixList : List Char → List Char → Bool
  | [], _ => true
  | _ :: _, [] => false
  | a :: as, b :: bs => a == b && isPrefixList as bs

/-- Whether `needle` occurs as a contiguous substring of `hay` (models Rust
`str::contains` with a string pattern). -/
def hasSubstr (needle : List Char) : List Char → Bool
  | [] => isPrefixList needle []
  | c :: t => isPrefixList needle (c :: t) || hasSubstr needle t

/-- ASCII whitespace test on a character (models the whitespace class used
by Rust `split_whitespace` and `trim` for the ASCII inputs of this
protocol). -/
def isWsChar (c : Char) : Bool :=
  c == ' ' || c == '\t' || c == '\n' || c == '\r' || c == Char.ofNat 11 || c == Char.ofNat 12

/-- Fuel-indexed worker for `splitWs`; the fuel only bounds the recursion
depth and never runs out when it starts at the list length. -/
def splitWsAux : Nat → List Char → List (List Char)
  | 0, _ => []
  | _ + 1, [] => []
  | fuel + 1, c :: rest =>
    if isWsChar c then splitWsAux fuel rest
    else (c :: rest.takeWhile (fun x => !isWsChar x)) ::
      splitWsAux fuel (rest.dropWhile (fun x => !isWsChar x))

/-- Rust `str::split_whitespace`: maximal runs of non-whitespace characters,
with empty tokens discarded. -/
def splitWs (l : List Char) : List (List Char) :=
  splitWsAux l.length l

/-- Trim ASCII whitespace from both ends of a character list (models Rust
`str::trim` on header keys and values). -/
def trimChars (l : List Char) : List Char :=
  ((l.dropWhile isWsChar).reverse.dropWhile isWsChar).reverse

/-- Strip one trailing carriage return (the tail step of Rust
`str::lines`). -/
def stripCR (l : List Char) : List Char :=
  if l.getLast? = some '\r' then l.dropLast else l

/-- Fuel-indexed worker for `rustLines`; the fuel only bounds the recursion
depth and never runs out when it starts at the list length. -/
def rustLinesAux : Nat → List Char → List (List Char)
  | 0, _ => []
  | fuel + 1, s =>
    if s = [] then []
    else
      stripCR (s.takeWhile (fun c => c != '\n')) ::
        rustLinesAux fuel ((s.dropWhile (fun c => c != '\n')).drop 1)

/-- Rust `str::lines`: split at newline characters, stripping at most one
trailing carriage return per line, with no trailing empty line. -/
def rustLines (s : List Char) : List (List Char) :=
  rustLinesAux s.length s

/-- The HTTP method enumeration from `src/protocol/request.rs`. -/
inductive HttpMethod
  | Get
  | Post
  | Put
  | Delete
  | Head
  | Options
  | Patch
  | Trace
  | Connect
deriving DecidableEq

/-- `impl FromStr for HttpMethod`: uppercase the token and match the nine
recognized methods; anything else is the "Unsupported HTTP method" error. -/
def HttpMethod.fromString (s : String) : Except String HttpMethod :=
  match upperAscii s with
  | "GET" => Except.ok HttpMethod.Get
  | "POST" => Except.ok HttpMethod.Post
  | "PUT" => Except.ok HttpMethod.Put
  | "DELETE" => Except.ok HttpMethod.Delete
  | "HEAD" => Except.ok HttpMethod.Head
  | "OPTIONS" => Except.ok HttpMethod.Options
  | "PATCH" => Except.ok HttpMethod.Patch
  | "TRACE" => Except.ok HttpMethod.Trace
  | "CONNECT" => Except.ok HttpMethod.Connect
  | _ => Except.error "Unsupported HTTP method"

/-- Insert into the header map, replacing any previous binding of the same
key (models `HashMap::insert`). -/
def hmInsert (k v : String) (m : List (String × String)) : List (String × String) :=
  (k, v) :: m.filter (fun p => p.1 != k)

/-- Look a key up in the header map (models `HashMap::get`). -/
def hmGet (m : List (String × String)) (k : String) : Option String :=
  (m.find? (fun p => p.1 == k)).map (fun p => p.2)

/-- A parsed HTTP request (`HttpRequest` in `src/protocol/request.rs`).
The header map is represented as a key-unique association list. -/
structure HttpRequest where
  method : HttpMethod
  path : String
  version : String
  headers : List (String × String)
  body : List Nat
deriving DecidableEq

/-- Split a header line at its first colon (Rust `line.find(':')`),
returning the raw key and value parts. -/
def splitAtColon (l : List Char) : Option (List Char × List Char) :=
  if ':' ∈ l then
    some (l.takeWhile (fun c => c != ':'), (l.dropWhile (fun c => c != ':')).drop 1)
  else none

/-- The header loop of `HttpRequest::from_buffer_sync`: process lines until
the first empty line; split each at the first colon, trim and lowercase the
key, trim the value, insert into the map; skip lines with no colon. -/
def parseHeadersAux (m : List (String × String)) : List (List Char) → List (String × String)
  | [] => m
  | line :: rest =>
    if line = [] then m
    else
      match splitAtColon line with
      | none => parseHeadersAux m rest
      | some (k, v) =>
        parseHeadersAux (hmInsert (lowerAscii (String.mk (trimChars k))) (String.mk (trimChars v)) m) rest

/-- `HttpRequest::from_buffer_sync` from `src/protocol/request.rs`: parse the
request line and headers of a buffered request (no body).  The buffer is
taken as the string Rust obtains via `String::from_utf8_lossy`. -/
def from_buffer_sync (buffer : String) : Except String HttpRequest :=
  match rustLines buffer.data with
  | [] => Except.error "Empty request"
  | first :: rest =>
    let parts := splitWs first
    if parts.length = 3 then
      match HttpMethod.fromString (String.mk (parts.getD 0 [])) with
      | Except.error e => Except.error e
      | Except.ok m =>
        Except.ok ⟨m, String.mk (parts.getD 1 []), String.mk (parts.getD 2 []),
          parseHeadersAux [] rest, []⟩
    else Except.error "Invalid request line"

/-- `HttpRequest::get_header`: look the name up after lowercasing it. -/
def HttpRequest.get_header (r : HttpRequest) (name : String) : Option String :=
  hmGet r.headers (lowerAscii name)

/-- `is_websocket_request` from `src/websocket/handshake.rs`: if the
`upgrade`, `connection` and `sec-websocket-version` conditions all hold,
return the `sec-websocket-key` header value (which may itself be absent). -/
def is_websocket_request (r : HttpRequest) : Option String :=
  let is_upgrade := ((r.get_header "upgrade").map
    (fun v => lowerAscii v == "websocket")).getD false
  let is_connection_upgrade := ((r.get_header "connection").map
    (fun v => hasSubstr "upgrade".data (lowerAscii v).data)).getD false
  let is_version_13 := ((r.get_header "sec-websocket-version").map
    (fun v => v == "13")).getD false
  if is_upgrade && is_connection_upgrade && is_version_13 then
    r.get_header "sec-websocket-key"
  else none

/-- Left rotation of a 32-bit word (operand assumed below 2^32). -/
def rotl (s x : Nat) : Nat :=
  (x * 2 ^ s + x / 2 ^ (32 - s)) % 4294967296

/-- SHA-1 round constant for round `t` (RFC 3174). -/
def sha1K (t : Nat) : Nat :=
  if t < 20 then 1518500249
  else if t < 40 then 1859775393
  else if t < 60 then 2400959708
  else 3395469782

/-- SHA-1 round function for round `t` (RFC 3174). -/
def sha1F (t b c d : Nat) : Nat :=
  if t < 20 then (b &&& c) ||| ((4294967295 ^^^ b) &&& d)
  else if t < 40 then b ^^^ c ^^^ d
  else if t < 60 then (b &&& c) ||| (b &&& d) ||| (c &&& d)
  else b ^^^ c ^^^ d

/-- Group a 64-byte block into 16 big-endian 32-bit words. -/
def bytesToWords : List Nat → List Nat
  | a :: b :: c :: d :: rest => (((a * 256 + b) * 256 + c) * 256 + d) :: bytesToWords rest
  | _ => []

/-- Extend the 16 scheduled words to 80, keeping the list reversed (head is
the most recent word): the new word is `rotl 1` of the XOR of the words 3,
8, 14 and 16 positions back. -/
def schedAux : Nat → List Nat → List Nat
  | 0, wrev => wrev
  | n + 1, wrev =>
    schedAux n (rotl 1 (wrev.getD 2 0 ^^^ wrev.getD 7 0 ^^^ wrev.getD 13 0 ^^^ wrev.getD 15 0) :: wrev)

/-- The 80 SHA-1 compression rounds over the scheduled words. -/
def sha1Rounds : Nat → List Nat → Nat × Nat × Nat × Nat × Nat → Nat × Nat × Nat × Nat × Nat
  | _, [], st => st
  | t, wt :: ws, (a, b, c, d, e) =>
    sha1Rounds (t + 1) ws
      ((rotl 5 a + sha1F t b c d + e + sha1K t + wt) % 4294967296, a, rotl 30 b, c, d)

/-- Process one 64-byte block: schedule, compress, add into the running
state modulo 2^32. -/
def sha1Block (st : Nat × Nat × Nat × Nat × Nat) (block : List Nat) :
    Nat × Nat × Nat × Nat × Nat :=
  let w := (schedAux 64 (bytesToWords block).reverse).reverse
  match st, sha1Rounds 0 w st with
  | (h0, h1, h2, h3, h4), (a, b, c, d, e) =>
    ((h0 + a) % 4294967296, (h1 + b) % 4294967296, (h2 + c) % 4294967296,
     (h3 + d) % 4294967296, (h4 + e) % 4294967296)

/-- SHA-1 padding: a 0x80 byte, zeros to 56 mod 64, then the bit length as
a big-endian 64-bit value. -/
def sha1Pad (msg : List Nat) : List Nat :=
  msg ++ 128 :: List.replicate ((64 - (msg.length + 9) % 64) % 64) 0 ++ beBytes 8 (msg.length * 8)

/-- Fuel-indexed worker for `chunks64`. -/
def chunks64Aux : Nat → List Nat → List (List Nat)
  | 0, _ => []
  | _ + 1, [] => []
  | fuel + 1, b :: rest => ((b :: rest).take 64) :: chunks64Aux fuel ((b :: rest).drop 64)

/-- Split a byte list into 64-byte chunks. -/
def chunks64 (l : List Nat) : List (List Nat) :=
  chunks64Aux l.length l

/-- Modelled from the spec: the 160-bit cryptographic hash named by RFC 6455
section 1.3 is SHA-1 (RFC 3174); the repository delegates it to the external
`sha1` crate.  Returns the 20 digest bytes. -/
def sha1 (msg : List Nat) : List Nat :=
  match (chunks64 (sha1Pad msg)).foldl sha1Block
    (1732584193, 4023233417, 2562383102, 271733878, 3285377520) with
  | (h0, h1, h2, h3, h4) =>
    beBytes 4 h0 ++ beBytes 4 h1 ++ beBytes 4 h2 ++ beBytes 4 h3 ++ beBytes 4 h4

/-- Character of the standard base64 alphabet at index `n` (RFC 4648). -/
def b64c (n : Nat) : Nat :=
  if n < 26 then 65 + n
  else if n < 52 then 71 + n
  else if n < 62 then n - 4
  else if n = 62 then 43
  else 47

/-- Modelled from the spec: standard base64 encoding with padding, as
performed by the external `base64` crate (`general_purpose::STANDARD`). -/
def b64encode : List Nat → List Nat
  | [] => []
  | [a] => [b64c (a / 4), b64c (a % 4 * 16), 61, 61]
  | [a, b] => [b64c (a / 4), b64c (a % 4 * 16 + b / 16), b64c (b % 16 * 4), 61]
  | a :: b :: c :: rest =>
    b64c (a / 4) :: b64c (a % 4 * 16 + b / 16) :: b64c (b % 16 * 4 + c / 64) ::
      b64c (c % 64) :: b64encode rest

/-- The fixed RFC 6455 magic string appended to the client nonce. -/
def WEBSOCKET_MAGIC_STRING : List Nat :=
  asciiBytes "258EAFA5-E914-47DA-95CA-C5AB0DC85B11"

/-- `generate_accept_key` from `src/websocket/handshake.rs`: base64 of the
SHA-1 digest of the nonce bytes followed by the magic string. -/
def generate_accept_key (websocket_key : List Nat) : List Nat :=
  b64encode (sha1 (websocket_key ++ WEBSOCKET_MAGIC_STRING))

/-- Whether a byte is ASCII whitespace (models Rust `str::trim` on the
chunk-size token). -/
def isWsByte (b : Nat) : Bool :=
  b == 32 || b == 9 || b == 10 || b == 13 || b == 11 || b == 12

/-- Trim ASCII whitespace from both ends of a byte list. -/
def trimBytes (l : List Nat) : List Nat :=
  ((l.dropWhile isWsByte).reverse.dropWhile isWsByte).reverse

/-- Value of an ASCII hex digit, if it is one. -/
def hexDigitVal (b : Nat) : Option Nat :=
  if 48 ≤ b ∧ b ≤ 57 then some (b - 48)
  else if 97 ≤ b ∧ b ≤ 102 then some (b - 87)
  else if 65 ≤ b ∧ b ≤ 70 then some (b - 55)
  else none

/-- Accumulate hex digits left to right. -/
def parseHexAux : List Nat → Nat → Option Nat
  | [], acc => some acc
  | b :: rest, acc =>
    match hexDigitVal b with
    | none => none
    | some d => parseHexAux rest (acc * 16 + d)

/-- Radix-16 string parse (models `usize::from_str_radix(s, 16)`: optional
leading plus sign, then at least one hex digit; overflow is not modelled —
oversized values are caught by the 10 MiB guard instead). -/
def parseHex (l : List Nat) : Option Nat :=
  match l with
  | [] => none
  | b :: rest =>
    if b = 43 then (if rest = [] then none else parseHexAux rest 0)
    else parseHexAux (b :: rest) 0

/-- The byte-at-a-time chunk-size-line reader of `read_chunked_body`:
accumulate bytes until the last two are CR LF; fail once more than 20 bytes
have accumulated without a terminator, or at end of input (a failed
`read_exact`). -/
def readSizeLine (acc : List Nat) : List Nat → Except String (List Nat × List Nat)
  | [] => Except.error "Read error"
  | b :: rest =>
    let acc2 := acc ++ [b]
    if 2 ≤ acc2.length ∧ acc2.getD (acc2.length - 2) 0 = 13 ∧ b = 10 then
      Except.ok (acc2, rest)
    else if 20 < acc2.length then Except.error "Invalid chunk size"
    else readSizeLine acc2 rest

/-- The loop of `read_chunked_body` from `src/protocol/request.rs`, over an
explicit input byte stream: read a size line, strip any `;`-delimited chunk
extension, trim, parse the hex size; a zero size consumes two further bytes
and stops; otherwise guard the 10 MiB cumulative cap, take the chunk bytes,
skip the trailing CRLF pair (two bytes, not validated), and continue.  The
fuel only bounds the recursion depth: every iteration consumes at least one
input byte (`readSizeLine_rest_lt`), so starting the fuel above the input
length never exhausts it. -/
def readChunkedAux : Nat → List Nat → List Nat → Except String (List Nat)
  | 0, _, _ => Except.error "Read error"
  | fuel + 1, input, body =>
    match readSizeLine [] input with
    | Except.error e => Except.error e
    | Except.ok (sizeLine, rest) =>
      let sizeToken := trimBytes ((sizeLine.take (sizeLine.length - 2)).takeWhile (fun b => b != 59))
      match parseHex sizeToken with
      | none => Except.error "Invalid chunk size"
      | some chunkSize =>
        if chunkSize = 0 then
          if 2 ≤ rest.length then Except.ok body else Except.error "Read error"
        else if 10485760 < body.length + chunkSize then Except.error "Chunked body too large"
        else if rest.length < chunkSize + 2 then Except.error "Read error"
        else readChunkedAux fuel (rest.drop (chunkSize + 2)) (body ++ rest.take chunkSize)

/-- `read_chunked_body` from `src/protocol/request.rs`, over an explicit
input byte stream standing for the socket. -/
def read_chunked_body (input : List Nat) : Except String (List Nat) :=
  readChunkedAux (input.length + 1) input []

/-- Fuel-indexed worker for `digitsHex`; the fuel never runs out when it
starts at the value itself. -/
def digitsHexAux : Nat → Nat → List Nat
  | 0, _ => []
  | fuel + 1, n => if n = 0 then [] else digitsHexAux fuel (n / 16) ++ [n % 16]

/-- Hex digits of `n` most significant first (digit values, not ASCII). -/
def digitsHex (n : Nat) : List Nat :=
  digitsHexAux n n

/-- ASCII code of a hex digit value, lowercase. -/
def hexChar (d : Nat) : Nat :=
  if d < 10 then 48 + d else 87 + d

/-- Minimal lowercase hex representation of `n` in ASCII bytes. -/
def toHexBytes (n : Nat) : List Nat :=
  if n = 0 then [48] else (digitsHex n).map hexChar

/-- Modelled from the spec: one well-formed chunk of the chunked
transfer encoding — hex size line, CRLF, payload, CRLF. -/
def encodeChunk (c : List Nat) : List Nat :=
  toHexBytes c.length ++ [13, 10] ++ c ++ [13, 10]

/-- Modelled from the spec: a well-formed chunked-encoded stream — the
chunks in order followed by the zero-size terminator line and final CRLF. -/
def encodeChunked (chunks : List (List Nat)) : List Nat :=
  (chunks.map encodeChunk).flatten ++ [48, 13, 10, 13, 10]

/-- Join lines with CRLF terminators (the inverse direction of
`rustLines`, used to build raw request buffers from header lines). -/
def linesJoin (ls : List (List Char)) : List Char :=
  (ls.map (fun l => l ++ ['\r', '\n'])).flatten

/-- The claim's description of header mapping, stated over the raw header
lines: split each line at its first colon, trim and lowercase the key, trim
the value, silently skip lines without a colon, and let the last occurrence
of a key win. -/
def headerMapSpec (lines : List (List Char)) : List (String × String) :=
  lines.foldl (fun m line =>
    match splitAtColon line with
    | none => m
    | some (k, v) =>
      hmInsert (lowerAscii (String.mk (trimChars k))) (String.mk (trimChars v)) m) []

/-- Events the WebSocket session loop of `handle_websocket`
(`src/websocket/mod.rs`) reacts to: a ping-timer tick or a decoded incoming
frame. -/
inductive SessionEvent
  | Tick
  | Recv (f : WebSocketFrame)
deriving DecidableEq

/-- The per-connection session state of `handle_websocket`: the
awaiting-pong flag. -/
structure SState where
  awaitingPong : Bool
deriving DecidableEq

/-- One iteration of the `tokio::select!` loop of `handle_websocket`:
returns the next state (`none` when the loop breaks, i.e. the session is
closed) and the frames written to the socket.  Socket writes are modelled
as always succeeding. -/
def sessionStep (st : SState) : SessionEvent → Option SState × List WebSocketFrame
  | SessionEvent.Tick =>
    if st.awaitingPong then
      (none, [WebSocketFrame.Close (some (1002, asciiBytes "Ping timeout"))])
    else (some ⟨true⟩, [WebSocketFrame.Ping []])
  | SessionEvent.Recv (WebSocketFrame.Text t) =>
    (some st, [WebSocketFrame.Text (asciiBytes "Echo: " ++ t)])
  | SessionEvent.Recv (WebSocketFrame.Binary d) =>
    (some st, [WebSocketFrame.Binary d])
  | SessionEvent.Recv (WebSocketFrame.Ping d) =>
    (some st, [WebSocketFrame.Pong d])
  | SessionEvent.Recv (WebSocketFrame.Pong _) =>
    (some ⟨false⟩, [])
  | SessionEvent.Recv (WebSocketFrame.Close _) =>
    (none, [WebSocketFrame.Close none])

/-- Run the session loop of `handle_websocket` over a sequence of events,
collecting every frame sent; the loop stops at the first closing step and
ignores any later events. -/
def runSession : SState → List SessionEvent → List WebSocketFrame
  | _, [] => []
  | st, e :: rest =>
    match sessionStep st e with
    | (none, out) => out
    | (some st2, out) => out ++ runSession st2 rest

theorem land128_eq_zero : ∀ b, b < 128 → b &&& 128 = 0 := by decide

theorem lor128_and128 : ∀ l, l < 128 → (l ||| 128) &&& 128 = 128 := by decide

theorem lor128_and127 : ∀ l, l < 128 → (l ||| 128) &&& 127 = l := by decide

theorem maskWith_length (key : List Nat) : ∀ (i : Nat) (l : List Nat),
    (maskWith key i l).length = l.length := by
  intro i l
  induction l generalizing i with
  | nil => rfl
  | cons b rest ih => simp [maskWith, ih]

theorem maskWith_maskWith (key : List Nat) : ∀ (i : Nat) (l : List Nat),
    maskWith key i (maskWith key i l) = l := by
  intro i l
  induction l generalizing i with
  | nil => rfl
  | cons b rest ih =>
    simp only [maskWith, ih]
    rw [Nat.xor_assoc, Nat.xor_self, Nat.xor_zero]

/-- Claim C5: every input of at least 2 bytes whose second byte has the mask
bit (0x80) clear is rejected by WebSocketFrame::parse with
UnmaskedClientFrame, regardless of the opcode in the first byte and of the
remaining bytes. -/
theorem c5_prop (b0 b1 : Nat) (rest : List Nat) (h : b1 < 128) :
    WebSocketFrame.parse (b0 :: b1 :: rest) = Except.error ParseError.UnmaskedClientFrame := by
  simp [WebSocketFrame.parse, land128_eq_zero b1 h]

/-- Claim C10: a complete masked Close frame whose payload length is
exactly 1 parses successfully to Close(None), discarding the payload byte
without close-code validation — the same frame value as a length-0 Close. -/
theorem c10_prop (key : List Nat) (b : Nat) (hkey : key.length = 4) :
    WebSocketFrame.parse (136 :: 129 :: (key ++ [b])) = Except.ok (WebSocketFrame.Close none, 7) ∧
    WebSocketFrame.parse (136 :: 128 :: key) = Except.ok (WebSocketFrame.Close none, 6) := by
  have e1 : (129 : Nat) &&& 128 = 128 := by decide
  have e2 : (129 : Nat) &&& 127 = 1 := by decide
  have e3 : (128 : Nat) &&& 128 = 128 := by decide
  have e4 : (128 : Nat) &&& 127 = 0 := by decide
  have hop : OpCode.fromByte 136 = OpCode.Close := by decide
  constructor
  · simp only [WebSocketFrame.parse, e1, e2, hop]
    norm_num
    rw [List.take_left' hkey, List.drop_left' hkey]
    simp [OpCode.is_control, maskWith, decodePayload, hkey]
  · simp only [WebSocketFrame.parse, e3, e4, hop]
    norm_num
    simp [OpCode.is_control, maskWith, decodePayload, hkey]

theorem beBytes_length : ∀ (k n : Nat), (beBytes k n).length = k := by
  intro k
  induction k with
  | zero => intro n; rfl
  | succ k ih => intro n; simp [beBytes, ih]

theorem beVal_append_one (l : List Nat) (b : Nat) :
    beVal (l ++ [b]) = beVal l * 256 + b := by
  simp [beVal, List.foldl_append]

theorem beVal_beBytes : ∀ (k n : Nat), beVal (beBytes k n) = n % 256 ^ k := by
  intro k
  induction k with
  | zero => intro n; simp [beBytes, beVal, Nat.mod_one]
  | succ k ih =>
    intro n
    rw [beBytes, beVal_append_one, ih]
    rw [show (256 : Nat) ^ (k + 1) = 256 * 256 ^ k by ring, Nat.mod_mul]
    ring

theorem lenByte_lt (L : Nat) : lenByte L < 128 := by
  unfold lenByte
  split
  · omega
  · split <;> omega

theorem fromByte_lor_toByte (op : OpCode) : OpCode.fromByte (128 ||| op.toByte) = op := by
  cases op <;> decide

theorem clientMask_write_frame (op : OpCode) (payload key : List Nat) :
    clientMask key (WebSocketFrame.write_frame op payload) =
      (128 ||| op.toByte) :: (lenByte payload.length ||| 128) ::
        (lenExt payload.length ++ key ++ maskWith key 0 payload) := by
  rw [show WebSocketFrame.write_frame op payload =
    (128 ||| op.toByte) :: lenByte payload.length :: (lenExt payload.length ++ payload) from rfl]
  simp only [clientMask]
  rw [Nat.mod_eq_of_lt (lenByte_lt payload.length)]
  by_cases h1 : payload.length < 126
  · simp only [lenExt, lenByte, if_pos h1]
    have e1 : ¬ (payload.length = 126) := by omega
    have e2 : ¬ (payload.length = 127) := by omega
    simp [e1, e2]
  · by_cases h2 : payload.length < 65536
    · simp only [lenExt, lenByte, if_neg h1, if_pos h2]
      norm_num
      rw [List.take_left' (beBytes_length 2 payload.length),
        List.drop_left' (beBytes_length 2 payload.length)]
    · simp only [lenExt, lenByte, if_neg h1, if_neg h2]
      norm_num
      rw [List.take_left' (beBytes_length 8 payload.length),
        List.drop_left' (beBytes_length 8 payload.length)]

theorem parse_shortFrame (b0 L : Nat) (key masked : List Nat)
    (hL : L < 126) (hkey : key.length = 4) (hm : masked.length = L) :
    WebSocketFrame.parse (b0 :: (L ||| 128) :: (key ++ masked)) =
      decodePayload (OpCode.fromByte b0) (maskWith key 0 masked) (2 + 0 + 4 + L) := by
  simp only [WebSocketFrame.parse]
  rw [lor128_and128 L (by omega), lor128_and127 L (by omega)]
  have e1 : ¬ (L = 126) := by omega
  have e2 : ¬ (L = 127) := by omega
  have hctl : ¬ ((OpCode.fromByte b0).is_control = true ∧ 125 < L) := by
    rintro ⟨_, h⟩
    omega
  simp only [if_neg e1, if_neg e2, List.drop_zero, if_neg hctl]
  rw [List.take_left' hkey, List.drop_left' hkey]
  have h4 : ¬ ((key ++ masked).length < 4) := by simp [hkey]
  simp only [if_neg h4, hm]
  rw [List.take_of_length_le (le_of_eq hm)]
  simp

theorem parse_ext2Frame (b0 L : Nat) (key masked : List Nat)
    (hL : L < 65536) (hkey : key.length = 4) (hm : masked.length = L)
    (hic : (OpCode.fromByte b0).is_control = false) :
    WebSocketFrame.parse (b0 :: 254 :: (beBytes 2 L ++ (key ++ masked))) =
      decodePayload (OpCode.fromByte b0) (maskWith key 0 masked) (2 + 2 + 4 + L) := by
  simp only [WebSocketFrame.parse]
  have e1 : (254 : Nat) &&& 128 = 128 := by decide
  have e2 : (254 : Nat) &&& 127 = 126 := by decide
  rw [e1, e2]
  have hval : beVal (beBytes 2 L) = L := by
    rw [beVal_beBytes]
    exact Nat.mod_eq_of_lt (by norm_num; omega)
  simp only [reduceIte]
  rw [List.take_left' (beBytes_length 2 L), List.drop_left' (beBytes_length 2 L), hval]
  have hctl : ¬ ((OpCode.fromByte b0).is_control = true ∧ 125 < L) := by
    rintro ⟨h, _⟩
    rw [hic] at h
    cases h
  simp only [if_neg hctl]
  rw [List.take_left' hkey, List.drop_left' hkey]
  have h4 : ¬ ((key ++ masked).length < 4) := by simp [hkey]
  have hlen2 : ¬ ((beBytes 2 L ++ (key ++ masked)).length < 2) := by
    simp [beBytes_length 2 L]
  simp only [if_neg h4, if_neg hlen2, hm]
  rw [List.take_of_length_le (le_of_eq hm)]
  simp

theorem parse_ext8Frame (b0 L : Nat) (key masked : List Nat)
    (hL : L < 18446744073709551616) (hkey : key.length = 4) (hm : masked.length = L)
    (hic : (OpCode.fromByte b0).is_control = false) :
    WebSocketFrame.parse (b0 :: 255 :: (beBytes 8 L ++ (key ++ masked))) =
      decodePayload (OpCode.fromByte b0) (maskWith key 0 masked) (2 + 8 + 4 + L) := by
  simp only [WebSocketFrame.parse]
  have e1 : (255 : Nat) &&& 128 = 128 := by decide
  have e2 : (255 : Nat) &&& 127 = 127 := by decide
  rw [e1, e2]
  have hval : beVal (beBytes 8 L) = L := by
    rw [beVal_beBytes]
    exact Nat.mod_eq_of_lt (by norm_num; omega)
  simp only [show ((127 : Nat) = 126) = False by decide, if_false, reduceIte]
  rw [List.take_left' (beBytes_length 8 L), List.drop_left' (beBytes_length 8 L), hval]
  have hctl : ¬ ((OpCode.fromByte b0).is_control = true ∧ 125 < L) := by
    rintro ⟨h, _⟩
    rw [hic] at h
    cases h
  simp only [if_neg hctl]
  rw [List.take_left' hkey, List.drop_left' hkey]
  have h4 : ¬ ((key ++ masked).length < 4) := by simp [hkey]
  have hlen8 : ¬ ((beBytes 8 L ++ (key ++ masked)).length < 8) := by
    simp [beBytes_length 8 L]
  simp only [if_neg h4, if_neg hlen8, hm]
  rw [List.take_of_length_le (le_of_eq hm)]
  simp

theorem parse_clientMask_write_frame (op : OpCode) (payload key : List Nat)
    (hkey : key.length = 4)
    (hctl : op.is_control = true → payload.length ≤ 125)
    (h64 : payload.length < 18446744073709551616) :
    WebSocketFrame.parse (clientMask key (WebSocketFrame.write_frame op payload)) =
      decodePayload op payload (2 + (lenExt payload.length).length + 4 + payload.length) := by
  rw [clientMask_write_frame]
  have hmasklen : (maskWith key 0 payload).length = payload.length := maskWith_length key 0 payload
  have hunmask : maskWith key 0 (maskWith key 0 payload) = payload := maskWith_maskWith key 0 payload
  by_cases h1 : payload.length < 126
  · have elb : lenByte payload.length = payload.length := if_pos h1
    have ele : lenExt payload.length = [] := if_pos h1
    rw [elb, ele, List.nil_append,
      parse_shortFrame _ payload.length key _ h1 hkey hmasklen, hunmask, fromByte_lor_toByte]
    rfl
  · have hic : op.is_control = false := by
      cases hoc : op.is_control
      · rfl
      · have := hctl hoc
        omega
    have hic2 : (OpCode.fromByte (128 ||| op.toByte)).is_control = false := by
      rw [fromByte_lor_toByte]
      exact hic
    by_cases h2 : payload.length < 65536
    · have elb : lenByte payload.length = 126 := by rw [lenByte, if_neg h1, if_pos h2]
      have ele : lenExt payload.length = beBytes 2 payload.length := by
        rw [lenExt, if_neg h1, if_pos h2]
      have e254 : (126 : Nat) ||| 128 = 254 := by decide
      rw [elb, ele, List.append_assoc, e254,
        parse_ext2Frame _ payload.length key _ h2 hkey hmasklen hic2, hunmask,
        fromByte_lor_toByte, beBytes_length]
    · have elb : lenByte payload.length = 127 := by rw [lenByte, if_neg h1, if_neg h2]
      have ele : lenExt payload.length = beBytes 8 payload.length := by
        rw [lenExt, if_neg h1, if_neg h2]
      have e255 : (127 : Nat) ||| 128 = 255 := by decide
      rw [elb, ele, List.append_assoc, e255,
        parse_ext8Frame _ payload.length key _ h64 hkey hmasklen hic2, hunmask,
        fromByte_lor_toByte, beBytes_length]

theorem clientMask_write_frame_length (op : OpCode) (payload key : List Nat)
    (hkey : key.length = 4) :
    (clientMask key (WebSocketFrame.write_frame op payload)).length =
      2 + (lenExt payload.length).length + 4 + payload.length := by
  rw [clientMask_write_frame]
  simp [hkey, maskWith_length]
  omega

/-- Claim C1 (amended): for every Text, Binary, Ping or Pong frame value
whose payload is at most 125 bytes when the kind is Ping or Pong (the
data-model invariant for control frames), encoding with to_bytes, applying
the client-masking convention with an arbitrary 4-byte key, and parsing
yields exactly the original frame, and the consumed count equals the full
masked encoding length.  Text payloads are assumed valid UTF-8 (the Rust
String type invariant) and lengths below 2^64 (usize). -/
theorem c1_prop (f : WebSocketFrame) (key : List Nat)
    (hkey : key.length = 4) (hf : dataFrameOk f = true) :
    WebSocketFrame.parse (clientMask key f.to_bytes) =
      Except.ok (f, (clientMask key f.to_bytes).length) := by
  cases f with
  | Text p =>
    rw [show (WebSocketFrame.Text p).to_bytes = WebSocketFrame.write_frame OpCode.Text p from rfl]
    simp only [dataFrameOk, Bool.and_eq_true, decide_eq_true_eq] at hf
    rw [parse_clientMask_write_frame OpCode.Text p key hkey
      (fun h => by simp [OpCode.is_control] at h) hf.2,
      clientMask_write_frame_length OpCode.Text p key hkey]
    simp [decodePayload, hf.1]
  | Binary p =>
    rw [show (WebSocketFrame.Binary p).to_bytes = WebSocketFrame.write_frame OpCode.Binary p from rfl]
    simp only [dataFrameOk, decide_eq_true_eq] at hf
    rw [parse_clientMask_write_frame OpCode.Binary p key hkey
      (fun h => by simp [OpCode.is_control] at h) hf,
      clientMask_write_frame_length OpCode.Binary p key hkey]
    simp [decodePayload]
  | Close info =>
    simp [dataFrameOk] at hf
  | Ping p =>
    rw [show (WebSocketFrame.Ping p).to_bytes = WebSocketFrame.write_frame OpCode.Ping p from rfl]
    simp only [dataFrameOk, decide_eq_true_eq] at hf
    rw [parse_clientMask_write_frame OpCode.Ping p key hkey (fun _ => hf) (by omega),
      clientMask_write_frame_length OpCode.Ping p key hkey]
    simp [decodePayload]
  | Pong p =>
    rw [show (WebSocketFrame.Pong p).to_bytes = WebSocketFrame.write_frame OpCode.Pong p from rfl]
    simp only [dataFrameOk, decide_eq_true_eq] at hf
    rw [parse_clientMask_write_frame OpCode.Pong p key hkey (fun _ => hf) (by omega),
      clientMask_write_frame_length OpCode.Pong p key hkey]
    simp [decodePayload]

/-- Counterexample to claim C1 as stated: a Ping frame with a 126-byte
payload is a frame value of kind Ping, yet parsing its masked encoding
fails with ControlFrameTooLarge instead of returning the original frame. -/
theorem c1_counterexample :
    WebSocketFrame.parse (clientMask [0, 0, 0, 0]
        ((WebSocketFrame.Ping (List.replicate 126 0)).to_bytes)) =
      Except.error ParseError.ControlFrameTooLarge ∧
    WebSocketFrame.parse (clientMask [0, 0, 0, 0]
        ((WebSocketFrame.Ping (List.replicate 126 0)).to_bytes)) ≠
      Except.ok (WebSocketFrame.Ping (List.replicate 126 0),
        (clientMask [0, 0, 0, 0] ((WebSocketFrame.Ping (List.replicate 126 0)).to_bytes)).length) := by
  constructor
  · decide
  · decide

/-- Witness for claim C1 at the Text frame "Hi" and mask key
[1, 2, 3, 4]. -/
theorem c1_witness :
    dataFrameOk (WebSocketFrame.Text (asciiBytes "Hi")) = true ∧
    ([1, 2, 3, 4] : List Nat).length = 4 ∧
    WebSocketFrame.parse (clientMask [1, 2, 3, 4] (WebSocketFrame.Text (asciiBytes "Hi")).to_bytes) =
      Except.ok (WebSocketFrame.Text (asciiBytes "Hi"),
        (clientMask [1, 2, 3, 4] (WebSocketFrame.Text (asciiBytes "Hi")).to_bytes).length) :=
  ⟨by decide, by decide, c1_prop (WebSocketFrame.Text (asciiBytes "Hi")) [1, 2, 3, 4]
    (by decide) (by decide)⟩

/-- Claim C6: for every complete masked Close frame whose payload has
length at least 2 (a 16-bit code plus up to 123 reason bytes), parse fails
with InvalidCloseCode exactly when the big-endian code lies outside
1000-1003, 1007-1011 and 3000-4999, and succeeds with the decoded code and
reason otherwise. -/
theorem c6_prop (code : Nat) (reason key : List Nat)
    (hcode : code < 65536) (hreason : reason.length ≤ 123) (hkey : key.length = 4) :
    (WebSocketFrame.parse (clientMask key (WebSocketFrame.Close (some (code, reason))).to_bytes) =
        Except.error ParseError.InvalidCloseCode ↔ is_valid_close_code code = false) ∧
    (is_valid_close_code code = true →
      WebSocketFrame.parse (clientMask key (WebSocketFrame.Close (some (code, reason))).to_bytes) =
        Except.ok (WebSocketFrame.Close (some (code, reason)),
          (clientMask key (WebSocketFrame.Close (some (code, reason))).to_bytes).length)) := by
  have hto : (WebSocketFrame.Close (some (code, reason))).to_bytes =
      WebSocketFrame.write_frame OpCode.Close (beBytes 2 code ++ reason) := rfl
  have hbe : beBytes 2 code = [code / 256 % 256, code % 256] := by
    simp [beBytes]
  have hdiv : code / 256 % 256 = code / 256 := Nat.mod_eq_of_lt (by omega)
  have hplen : (beBytes 2 code ++ reason).length = 2 + reason.length := by
    simp [beBytes_length]
  rw [hto, parse_clientMask_write_frame OpCode.Close (beBytes 2 code ++ reason) key hkey
    (fun _ => by omega) (by omega),
    clientMask_write_frame_length OpCode.Close (beBytes 2 code ++ reason) key hkey]
  rw [show decodePayload OpCode.Close (beBytes 2 code ++ reason)
      (2 + (lenExt (beBytes 2 code ++ reason).length).length + 4 + (beBytes 2 code ++ reason).length) =
      (if 2 ≤ (beBytes 2 code ++ reason).length then
        if is_valid_close_code ((beBytes 2 code ++ reason).getD 0 0 * 256 + (beBytes 2 code ++ reason).getD 1 0) then
          Except.ok (WebSocketFrame.Close (some ((beBytes 2 code ++ reason).getD 0 0 * 256 + (beBytes 2 code ++ reason).getD 1 0, (beBytes 2 code ++ reason).drop 2)),
            2 + (lenExt (beBytes 2 code ++ reason).length).length + 4 + (beBytes 2 code ++ reason).length)
        else Except.error ParseError.InvalidCloseCode
      else Except.ok (WebSocketFrame.Close none,
        2 + (lenExt (beBytes 2 code ++ reason).length).length + 4 + (beBytes 2 code ++ reason).length)) from rfl]
  rw [hbe]
  have hgd0 : ([code / 256 % 256, code % 256] ++ reason).getD 0 0 = code / 256 % 256 := rfl
  have hgd1 : ([code / 256 % 256, code % 256] ++ reason).getD 1 0 = code % 256 := rfl
  rw [hgd0, hgd1, hdiv]
  have hrecon : code / 256 * 256 + code % 256 = code := by omega
  rw [hrecon]
  have h2le : 2 ≤ ([code / 256, code % 256] ++ reason).length := by simp
  rw [if_pos h2le, show List.drop 2 ([code / 256, code % 256] ++ reason) = reason from rfl]
  cases hv : is_valid_close_code code
  · simp
  · simp

/-- Witness for claim C5 at the concrete unmasked text frame
[0x81, 5, "Hello"]. -/
theorem c5_witness :
    (5 : Nat) < 128 ∧
    WebSocketFrame.parse [129, 5, 72, 101, 108, 108, 111] =
      Except.error ParseError.UnmaskedClientFrame :=
  ⟨by decide, c5_prop 129 5 [72, 101, 108, 108, 111] (by decide)⟩

/-- Witness for claim C6: code 1000 is accepted and code 1004 is
rejected, at a concrete mask key. -/
theorem c6_witness :
    is_valid_close_code 1000 = true ∧ is_valid_close_code 1004 = false ∧
    WebSocketFrame.parse (clientMask [5, 6, 7, 8]
        (WebSocketFrame.Close (some (1000, asciiBytes "bye"))).to_bytes) =
      Except.ok (WebSocketFrame.Close (some (1000, asciiBytes "bye")),
        (clientMask [5, 6, 7, 8] (WebSocketFrame.Close (some (1000, asciiBytes "bye"))).to_bytes).length) ∧
    WebSocketFrame.parse (clientMask [5, 6, 7, 8]
        (WebSocketFrame.Close (some (1004, []))).to_bytes) =
      Except.error ParseError.InvalidCloseCode :=
  ⟨by decide, by decide,
    (c6_prop 1000 (asciiBytes "bye") [5, 6, 7, 8] (by decide) (by decide) (by decide)).2 (by decide),
    (c6_prop 1004 [] [5, 6, 7, 8] (by decide) (by decide) (by decide)).1.mpr (by decide)⟩

/-- Witness for claim C10 at a concrete 4-byte mask key and payload
byte 99. -/
theorem c10_witness :
    ([11, 22, 33, 44] : List Nat).length = 4 ∧
    WebSocketFrame.parse (136 :: 129 :: ([11, 22, 33, 44] ++ [99])) =
      Except.ok (WebSocketFrame.Close none, 7) ∧
    WebSocketFrame.parse (136 :: 128 :: [11, 22, 33, 44]) =
      Except.ok (WebSocketFrame.Close none, 6) :=
  ⟨by decide, (c10_prop [11, 22, 33, 44] 99 (by decide)).1,
    (c10_prop [11, 22, 33, 44] 99 (by decide)).2⟩

/-- Claim C9: in the session loop while Open, a ping-timer tick with the
awaiting-pong flag set sends Close with code 1002 and reason
"Ping timeout" and closes the session (no further events are processed); a
tick with the flag clear sends a Ping with empty payload and continues with
the flag set. -/
theorem c9_prop (st : SState) (rest : List SessionEvent) :
    (st.awaitingPong = true →
      runSession st (SessionEvent.Tick :: rest) =
        [WebSocketFrame.Close (some (1002, asciiBytes "Ping timeout"))]) ∧
    (st.awaitingPong = false →
      runSession st (SessionEvent.Tick :: rest) =
        WebSocketFrame.Ping [] :: runSession ⟨true⟩ rest) := by
  constructor
  · intro h
    simp [runSession, sessionStep, h]
  · intro h
    simp [runSession, sessionStep, h]

/-- Witness for claim C9 at both concrete flag values. -/
theorem c9_witness :
    (SState.mk true).awaitingPong = true ∧
    (SState.mk false).awaitingPong = false ∧
    runSession ⟨true⟩ [SessionEvent.Tick, SessionEvent.Recv (WebSocketFrame.Ping [7])] =
      [WebSocketFrame.Close (some (1002, asciiBytes "Ping timeout"))] ∧
    runSession ⟨false⟩ [SessionEvent.Tick] =
      WebSocketFrame.Ping [] :: runSession ⟨true⟩ [] :=
  ⟨rfl, rfl,
    (c9_prop ⟨true⟩ [SessionEvent.Recv (WebSocketFrame.Ping [7])]).1 rfl,
    (c9_prop ⟨false⟩ []).2 rfl⟩

/-- Claim C2: generate_accept_key is a pure function of its nonce equal to
the base64 encoding of the SHA-1 digest of the nonce concatenated with the
fixed magic string, and the RFC 6455 nonce "dGhlIHNhbXBsZSBub25jZQ=="
derives exactly the accept token "s3pPLMBiTxaQ9kYGzzhZRbK+xOo=". -/
theorem c2_prop :
    (∀ nonce : List Nat,
      generate_accept_key nonce = b64encode (sha1 (nonce ++ WEBSOCKET_MAGIC_STRING))) ∧
    generate_accept_key (asciiBytes "dGhlIHNhbXBsZSBub25jZQ==") =
      asciiBytes "s3pPLMBiTxaQ9kYGzzhZRbK+xOo=" :=
  ⟨fun _ => rfl, by decide⟩

/-- Claim C3: is_websocket_request returns the sec-websocket-key header
value exactly when the upgrade header case-insensitively equals
"websocket", the connection header case-insensitively contains "upgrade",
the sec-websocket-version header equals "13", and the sec-websocket-key
header is present; in every other case it returns nothing. -/
theorem c3_prop (r : HttpRequest) (v : String) :
    (is_websocket_request r = some v ↔
      ((∃ u, r.get_header "upgrade" = some u ∧ lowerAscii u = "websocket") ∧
       (∃ c, r.get_header "connection" = some c ∧
         hasSubstr "upgrade".data (lowerAscii c).data = true) ∧
       r.get_header "sec-websocket-version" = some "13" ∧
       r.get_header "sec-websocket-key" = some v)) ∧
    (is_websocket_request r = none ↔
      ¬ ((∃ u, r.get_header "upgrade" = some u ∧ lowerAscii u = "websocket") ∧
         (∃ c, r.get_header "connection" = some c ∧
           hasSubstr "upgrade".data (lowerAscii c).data = true) ∧
         r.get_header "sec-websocket-version" = some "13" ∧
         (∃ k, r.get_header "sec-websocket-key" = some k))) := by
  unfold is_websocket_request
  cases h1 : r.get_header "upgrade" <;>
    cases h2 : r.get_header "connection" <;>
      cases h3 : r.get_header "sec-websocket-version" <;>
        cases h4 : r.get_header "sec-websocket-key" <;>
          simp_all [Option.getD, beq_iff_eq] <;> tauto

theorem rustLines_ne_nil (l : List Char) (h : l ≠ []) : rustLines l ≠ [] := by
  unfold rustLines
  cases hl : l.length with
  | zero => exact absurd (List.length_eq_zero.mp hl) h
  | succ k => simp [rustLinesAux, h]

/-- Counterexample to claim C8 as stated: the buffer " " has an empty
first token set, yet parsing fails with "Invalid request line", not
"empty request". -/
theorem c8_counterexample :
    from_buffer_sync " " = Except.error "Invalid request line" ∧
    splitWs [' '] = [] ∧
    from_buffer_sync " " ≠ Except.error "Empty request" := by
  refine ⟨by decide, by decide, ?_⟩
  intro h
  have h2 : from_buffer_sync " " = Except.error "Invalid request line" := by decide
  rw [h2] at h
  injection h with h3
  exact absurd h3 (by decide)

/-- Claim C8 (amended): request parsing fails with "Empty request" exactly
when the buffer is empty (contains no lines); when a first line exists and
splits into a number of whitespace-separated tokens other than 3 — including
zero tokens — it fails with "Invalid request line"; with exactly 3 tokens
they become the method (one of the 9 recognized tokens, else "Unsupported
HTTP method"), the path, and the version. -/
theorem c8_prop (buffer : String) :
    (from_buffer_sync buffer = Except.error "Empty request" ↔ buffer = "") ∧
    (∀ first rest, rustLines buffer.data = first :: rest →
      (splitWs first).length ≠ 3 →
      from_buffer_sync buffer = Except.error "Invalid request line") ∧
    (∀ first rest m p v, rustLines buffer.data = first :: rest →
      splitWs first = [m, p, v] →
      from_buffer_sync buffer = Except.map
        (fun M => HttpRequest.mk M (String.mk p) (String.mk v) (parseHeadersAux [] rest) [])
        (HttpMethod.fromString (String.mk m))) := by
  have hinv : ∀ first rest, rustLines buffer.data = first :: rest →
      (splitWs first).length ≠ 3 →
      from_buffer_sync buffer = Except.error "Invalid request line" := by
    intro first rest hl h3
    unfold from_buffer_sync
    rw [hl]
    simp only [if_neg h3]
  have hok3 : ∀ first rest m p v, rustLines buffer.data = first :: rest →
      splitWs first = [m, p, v] →
      from_buffer_sync buffer = Except.map
        (fun M => HttpRequest.mk M (String.mk p) (String.mk v) (parseHeadersAux [] rest) [])
        (HttpMethod.fromString (String.mk m)) := by
    intro first rest m p v hl hsp
    unfold from_buffer_sync
    rw [hl]
    simp only [hsp]
    norm_num
    cases hm : HttpMethod.fromString (String.mk m) with
    | error e => simp [Except.map, List.getD, hm]
    | ok M => simp [Except.map, List.getD, hm]
  refine ⟨?_, hinv, hok3⟩
  constructor
  · intro h
    cases hl : rustLines buffer.data with
    | nil =>
      by_contra hne
      have hdata : buffer.data ≠ [] := by
        intro hd
        apply hne
        cases buffer with
        | mk l =>
          simp only at hd
          rw [hd]
      exact rustLines_ne_nil buffer.data hdata hl
    | cons first rest =>
      by_cases h3 : (splitWs first).length = 3
      · obtain ⟨m, p, v, hsp⟩ := List.length_eq_three.mp h3
        rw [hok3 first rest m p v hl hsp] at h
        cases hm : HttpMethod.fromString (String.mk m) with
        | error e =>
          rw [hm] at h
          have he : e = "Unsupported HTTP method" := by
            unfold HttpMethod.fromString at hm
            split at hm <;> first
              | (injection hm with hmm; exact hmm.symm)
              | cases hm
          injection h with h4
          rw [he] at h4
          exact absurd h4 (by decide)
        | ok M =>
          rw [hm] at h
          exact Except.noConfusion h
      · rw [hinv first rest hl h3] at h
        injection h with h4
        exact absurd h4 (by decide)
  · intro h
    rw [h]
    rfl

/-- Witness for claim C8 at the empty buffer and at a request line with 3
tokens and an unrecognized method. -/
theorem c8_witness :
    from_buffer_sync "" = Except.error "Empty request" ∧
    rustLines "? /x HTTP/1.1".data = ["? /x HTTP/1.1".data] ∧
    splitWs "? /x HTTP/1.1".data = ["?".data, "/x".data, "HTTP/1.1".data] ∧
    from_buffer_sync "? /x HTTP/1.1" = Except.error "Unsupported HTTP method" := by
  refine ⟨(c8_prop "").1.mpr rfl, by decide, by decide, ?_⟩
  have h := (c8_prop "? /x HTTP/1.1").2.2 "? /x HTTP/1.1".data []
    "?".data "/x".data "HTTP/1.1".data (by decide) (by decide)
  rw [h]
  decide

theorem takeWhile_append_of_all {α : Type} (p : α → Bool) (l1 l2 : List α)
    (h : ∀ x ∈ l1, p x = true) :
    (l1 ++ l2).takeWhile p = l1 ++ l2.takeWhile p := by
  induction l1 with
  | nil => simp
  | cons a t ih =>
    have ha : p a = true := h a (by simp)
    simp only [List.cons_append, List.takeWhile_cons, ha]
    rw [ih (fun x hx => h x (by simp [hx]))]
    simp

theorem dropWhile_append_of_all {α : Type} (p : α → Bool) (l1 l2 : List α)
    (h : ∀ x ∈ l1, p x = true) :
    (l1 ++ l2).dropWhile p = l2.dropWhile p := by
  induction l1 with
  | nil => simp
  | cons a t ih =>
    have ha : p a = true := h a (by simp)
    simp only [List.cons_append, List.dropWhile_cons, ha]
    exact ih (fun x hx => h x (by simp [hx]))

theorem rustLinesAux_nil (fuel : Nat) : rustLinesAux fuel [] = [] := by
  cases fuel <;> rfl

theorem rustLinesAux_join : ∀ (ls : List (List Char)) (fuel : Nat),
    (linesJoin ls).length ≤ fuel → (∀ l ∈ ls, ('\n') ∉ l) →
    rustLinesAux fuel (linesJoin ls) = ls := by
  intro ls
  induction ls with
  | nil => intro fuel _ _; exact rustLinesAux_nil fuel
  | cons l rest ih =>
    intro fuel hfuel hwf
    have hjoin : linesJoin (l :: rest) = l ++ '\r' :: '\n' :: linesJoin rest := by
      simp [linesJoin]
    have hne : linesJoin (l :: rest) ≠ [] := by
      rw [hjoin]
      intro hcontra
      have := congrArg List.length hcontra
      simp at this
    cases fuel with
    | zero =>
      rw [hjoin] at hfuel
      simp at hfuel
    | succ fuel =>
      rw [rustLinesAux, if_neg hne, hjoin]
      have hall : ∀ c ∈ l, (c != '\n') = true := by
        intro c hc
        have : c ≠ '\n' := fun hcn => (hwf l (by simp)) (hcn ▸ hc)
        simpa using this
      rw [takeWhile_append_of_all _ l _ hall, dropWhile_append_of_all _ l _ hall]
      have htw : List.takeWhile (fun c => c != '\n') ('\r' :: '\n' :: linesJoin rest) = ['\r'] := by
        simp [List.takeWhile_cons]
      have hdw : List.dropWhile (fun c => c != '\n') ('\r' :: '\n' :: linesJoin rest) =
          '\n' :: linesJoin rest := by
        simp [List.dropWhile_cons]
      rw [htw, hdw]
      have hstrip : stripCR (l ++ ['\r']) = l := by
        unfold stripCR
        rw [List.getLast?_concat, if_pos rfl, List.dropLast_concat]
      rw [hstrip]
      simp only [List.drop_succ_cons, List.drop_zero]
      rw [ih fuel (by rw [hjoin] at hfuel; simp at hfuel; omega)
        (fun x hx => hwf x (by simp [hx]))]

theorem rustLines_join (ls : List (List Char)) (hwf : ∀ l ∈ ls, ('\n') ∉ l) :
    rustLines (linesJoin ls) = ls :=
  rustLinesAux_join ls (linesJoin ls).length (le_refl _) hwf

theorem parseHeadersAux_split : ∀ (hls : List (List Char)) (m : List (String × String))
    (rest : List (List Char)), (∀ l ∈ hls, l ≠ []) →
    parseHeadersAux m (hls ++ [] :: rest) =
      hls.foldl (fun m line =>
        match splitAtColon line with
        | none => m
        | some (k, v) =>
          hmInsert (lowerAscii (String.mk (trimChars k))) (String.mk (trimChars v)) m) m := by
  intro hls
  induction hls with
  | nil => intro m rest _; rfl
  | cons l t ih =>
    intro m rest h
    have hl : l ≠ [] := h l (by simp)
    simp only [List.cons_append, parseHeadersAux, if_neg hl, List.foldl_cons]
    cases hc : splitAtColon l with
    | none => exact ih m rest (fun x hx => h x (by simp [hx]))
    | some kv =>
      cases kv with
      | mk k v => exact ih _ rest (fun x hx => h x (by simp [hx]))

theorem from_buffer_sync_headers (buffer : String) (r : HttpRequest)
    (hok : from_buffer_sync buffer = Except.ok r) :
    ∃ first rest, rustLines buffer.data = first :: rest ∧
      r.headers = parseHeadersAux [] rest := by
  cases hl : rustLines buffer.data with
  | nil =>
    have he : from_buffer_sync buffer = Except.error "Empty request" := by
      unfold from_buffer_sync
      rw [hl]
    rw [he] at hok
    exact Except.noConfusion hok
  | cons first rest =>
    refine ⟨first, rest, rfl, ?_⟩
    by_cases h3 : (splitWs first).length = 3
    · cases hm : HttpMethod.fromString (String.mk ((splitWs first).getD 0 [])) with
      | error e =>
        have he : from_buffer_sync buffer = Except.error e := by
          unfold from_buffer_sync
          rw [hl]
          simp only [if_pos h3, hm]
        rw [he] at hok
        exact Except.noConfusion hok
      | ok M =>
        have he : from_buffer_sync buffer = Except.ok
            ⟨M, String.mk ((splitWs first).getD 1 []), String.mk ((splitWs first).getD 2 []),
              parseHeadersAux [] rest, []⟩ := by
          unfold from_buffer_sync
          rw [hl]
          simp only [if_pos h3, hm]
        rw [he] at hok
        injection hok with h5
        rw [← h5]
    · have he : from_buffer_sync buffer = Except.error "Invalid request line" := by
        unfold from_buffer_sync
        rw [hl]
        simp only [if_neg h3]
      rw [he] at hok
      exact Except.noConfusion hok

/-- Claim C7: for every header block, the parsed header map equals the
per-line description — each line split at its first colon with the key
trimmed and lowercased and the value trimmed, colonless lines silently
skipped, and the last occurrence of a key winning — and get_header resolves
any capitalization of a name to the same entry. -/
theorem c7_prop (reqline : List Char) (hls garbage : List (List Char)) (r : HttpRequest)
    (h0 : ('\n') ∉ reqline)
    (h1 : ∀ l ∈ hls, ('\n') ∉ l ∧ l ≠ [])
    (h2 : ∀ l ∈ garbage, ('\n') ∉ l)
    (hok : from_buffer_sync (String.mk (linesJoin (reqline :: (hls ++ [] :: garbage)))) =
      Except.ok r) :
    r.headers = headerMapSpec hls ∧
    (∀ name : String, r.get_header name = hmGet (headerMapSpec hls) (lowerAscii name)) ∧
    (∀ n1 n2 : String, lowerAscii n1 = lowerAscii n2 → r.get_header n1 = r.get_header n2) := by
  obtain ⟨first, rest, hl, hh⟩ := from_buffer_sync_headers _ r hok
  have hwf : ∀ l ∈ reqline :: (hls ++ [] :: garbage), ('\n') ∉ l := by
    intro l hmem
    rcases hmem with _ | hmem
    · exact h0
    · rename_i hmem2
      rcases List.mem_append.mp hmem2 with hmem3 | hmem3
      · exact (h1 l hmem3).1
      · rcases hmem3 with _ | hmem4
        · simp
        · rename_i hmem5
          exact h2 l hmem5
  have hlines : rustLines (String.mk (linesJoin (reqline :: (hls ++ [] :: garbage)))).data =
      reqline :: (hls ++ [] :: garbage) := by
    rw [show (String.mk (linesJoin (reqline :: (hls ++ [] :: garbage)))).data =
      linesJoin (reqline :: (hls ++ [] :: garbage)) from rfl]
    exact rustLines_join _ hwf
  rw [hlines] at hl
  injection hl with hfirst hrest
  have hheaders : r.headers = headerMapSpec hls := by
    rw [hh, ← hrest, parseHeadersAux_split hls [] garbage (fun l hmem => (h1 l hmem).2)]
    rfl
  refine ⟨hheaders, ?_, ?_⟩
  · intro name
    rw [show r.get_header name = hmGet r.headers (lowerAscii name) from rfl, hheaders]
  · intro n1 n2 heq
    rw [show r.get_header n1 = hmGet r.headers (lowerAscii n1) from rfl,
      show r.get_header n2 = hmGet r.headers (lowerAscii n2) from rfl, heq]

/-- Witness for claim C7 on a request with headers "Host: A" and
"hOsT: B": the map holds host=B. -/
theorem c7_witness :
    (from_buffer_sync (String.mk (linesJoin
        ("GET / HTTP/1.1".data :: (["Host: A".data, "hOsT: B".data] ++ [] :: ["junk".data])))) =
      Except.ok ⟨HttpMethod.Get, "/", "HTTP/1.1", [("host", "B")], []⟩) ∧
    (HttpRequest.mk HttpMethod.Get "/" "HTTP/1.1" [("host", "B")] []).headers =
      headerMapSpec ["Host: A".data, "hOsT: B".data] :=
  ⟨by decide,
    (c7_prop "GET / HTTP/1.1".data ["Host: A".data, "hOsT: B".data] ["junk".data]
      ⟨HttpMethod.Get, "/", "HTTP/1.1", [("host", "B")], []⟩
      (by decide) (by decide) (by decide) (by decide)).1⟩

theorem readSizeLine_rest_lt :
    ∀ (input : List Nat) (acc l r : List Nat),
      readSizeLine acc input = Except.ok (l, r) → r.length < input.length := by
  intro input
  induction input with
  | nil => intro acc l r h; simp [readSizeLine] at h
  | cons b rest ih =>
    intro acc l r h
    simp only [readSizeLine] at h
    split at h
    · cases h
      simp
    · split at h
      · cases h
      · have := ih (acc ++ [b]) l r h
        simp
        omega

theorem hexDigitVal_hexChar : ∀ d, d < 16 → hexDigitVal (hexChar d) = some d := by decide

theorem hexChar_range : ∀ d, d < 16 →
    (48 ≤ hexChar d ∧ hexChar d ≤ 57) ∨ (97 ≤ hexChar d ∧ hexChar d ≤ 102) := by decide

theorem parseHexAux_append (l1 l2 : List Nat) : ∀ (a : Nat),
    parseHexAux (l1 ++ l2) a = (parseHexAux l1 a).bind (fun x => parseHexAux l2 x) := by
  induction l1 with
  | nil => intro a; rfl
  | cons b t ih =>
    intro a
    simp only [List.cons_append, parseHexAux]
    cases hexDigitVal b with
    | none => rfl
    | some d => exact ih (a * 16 + d)

theorem digitsHexAux_mem : ∀ (fuel n d : Nat), d ∈ digitsHexAux fuel n → d < 16 := by
  intro fuel
  induction fuel with
  | zero => intro n d h; simp [digitsHexAux] at h
  | succ fuel ih =>
    intro n d h
    simp only [digitsHexAux] at h
    split at h
    · simp at h
    · rcases List.mem_append.mp h with h2 | h2
      · exact ih (n / 16) d h2
      · simp at h2
        omega

theorem digitsHexAux_parse : ∀ (fuel n : Nat), n ≤ fuel → ∀ (a : Nat),
    parseHexAux ((digitsHexAux fuel n).map hexChar) a =
      some (a * 16 ^ (digitsHexAux fuel n).length + n) := by
  intro fuel
  induction fuel with
  | zero =>
    intro n hn a
    interval_cases n
    simp [digitsHexAux, parseHexAux]
  | succ fuel ih =>
    intro n hn a
    by_cases h0 : n = 0
    · simp [digitsHexAux, h0, parseHexAux]
    · have hdiv : n / 16 ≤ fuel := by
        have := Nat.div_lt_self (Nat.pos_of_ne_zero h0) (show 1 < 16 by omega)
        omega
      simp only [digitsHexAux, if_neg h0, List.map_append]
      rw [parseHexAux_append, ih (n / 16) hdiv a]
      simp only [Option.some_bind]
      rw [show List.map hexChar [n % 16] = [hexChar (n % 16)] from rfl]
      simp only [parseHexAux, hexDigitVal_hexChar (n % 16) (by omega)]
      simp only [List.length_append, List.length_singleton]
      congr 1
      have heq : (a * 16 ^ (digitsHexAux fuel (n / 16)).length + n / 16) * 16 + n % 16 =
          a * (16 ^ (digitsHexAux fuel (n / 16)).length * 16) + (n / 16 * 16 + n % 16) := by ring
      have hdm : n / 16 * 16 + n % 16 = n := by omega
      rw [heq, pow_succ, hdm]

theorem digitsHexAux_length : ∀ (k fuel n : Nat), n ≤ fuel → n < 16 ^ k →
    (digitsHexAux fuel n).length ≤ k := by
  intro k
  induction k with
  | zero =>
    intro fuel n _ hk
    interval_cases n
    cases fuel <;> simp [digitsHexAux]
  | succ k ih =>
    intro fuel n hn hk
    cases fuel with
    | zero => simp [digitsHexAux]
    | succ fuel =>
      by_cases h0 : n = 0
      · simp [digitsHexAux, h0]
      · have hdiv : n / 16 ≤ fuel := by
          have := Nat.div_lt_self (Nat.pos_of_ne_zero h0) (show 1 < 16 by omega)
          omega
        have hdivk : n / 16 < 16 ^ k := by
          rw [Nat.div_lt_iff_lt_mul (by omega)]
          calc n < 16 ^ (k + 1) := hk
          _ = 16 ^ k * 16 := by rw [pow_succ]
        simp only [digitsHexAux, if_neg h0, List.length_append, List.length_singleton]
        have := ih fuel (n / 16) hdiv hdivk
        omega

theorem toHexBytes_range (n : Nat) : ∀ b ∈ toHexBytes n,
    (48 ≤ b ∧ b ≤ 57) ∨ (97 ≤ b ∧ b ≤ 102) := by
  intro b hb
  unfold toHexBytes at hb
  split at hb
  · simp at hb
    omega
  · obtain ⟨d, hd, hbd⟩ := List.mem_map.mp hb
    rw [← hbd]
    exact hexChar_range d (digitsHexAux_mem n n d hd)

theorem toHexBytes_length (k n : Nat) (hk : n < 16 ^ k) : (toHexBytes n).length ≤ max 1 k := by
  unfold toHexBytes
  split
  · simpa using le_max_left 1 k
  · have h := digitsHexAux_length k n n (le_refl n) hk
    simp only [List.length_map]
    rw [show digitsHex n = digitsHexAux n n from rfl]
    exact le_trans h (le_max_right 1 k)

theorem parseHex_toHexBytes (n : Nat) : parseHex (toHexBytes n) = some n := by
  unfold toHexBytes
  by_cases h0 : n = 0
  · rw [if_pos h0, h0]
    rfl
  · rw [if_neg h0]
    have hparse := digitsHexAux_parse n n (le_refl n) 0
    rw [show digitsHexAux n n = digitsHex n from rfl] at hparse
    cases hl : (digitsHex n).map hexChar with
    | nil =>
      rw [hl] at hparse
      simp [parseHexAux] at hparse
      exact absurd hparse.symm h0
    | cons b t =>
      have hb : b ∈ (digitsHex n).map hexChar := by rw [hl]; simp
      obtain ⟨d, hd, hbd⟩ := List.mem_map.mp hb
      have hd16 : d < 16 := digitsHexAux_mem n n d hd
      have hb43 : ¬ (b = 43) := by
        rw [← hbd]
        have := hexChar_range d hd16
        omega
      rw [hl] at hparse
      show (if b = 43 then (if t = [] then none else parseHexAux t 0)
        else parseHexAux (b :: t) 0) = some n
      rw [if_neg hb43, hparse]
      simp

theorem dropWhile_eq_self_of_all {α : Type} (p : α → Bool) (l : List α)
    (h : ∀ b ∈ l, p b = false) : l.dropWhile p = l := by
  cases l with
  | nil => rfl
  | cons a t =>
    rw [List.dropWhile_cons, h a (by simp)]
    simp

theorem takeWhile_eq_self_of_all {α : Type} (p : α → Bool) (l : List α)
    (h : ∀ b ∈ l, p b = true) : l.takeWhile p = l := by
  have := takeWhile_append_of_all p l [] h
  simpa using this

theorem trimBytes_of_all (l : List Nat) (h : ∀ b ∈ l, isWsByte b = false) :
    trimBytes l = l := by
  unfold trimBytes
  rw [dropWhile_eq_self_of_all _ _ h,
    dropWhile_eq_self_of_all _ _ (fun b hb => h b (List.mem_reverse.mp hb)),
    List.reverse_reverse]

theorem getD_append_left {α : Type} (l1 l2 : List α) (i : Nat) (d : α) (h : i < l1.length) :
    (l1 ++ l2).getD i d = l1.getD i d := by
  unfold List.getD
  rw [List.get?_append h]

theorem getD_append_right {α : Type} (l1 l2 : List α) (i : Nat) (d : α) (h : l1.length ≤ i) :
    (l1 ++ l2).getD i d = l2.getD (i - l1.length) d := by
  unfold List.getD
  rw [List.get?_append_right h]

theorem readSizeLine_exact : ∀ (line acc rest : List Nat),
    (∀ b ∈ line, b ≠ 10) → acc.length + line.length + 1 ≤ 20 →
    readSizeLine acc (line ++ 13 :: 10 :: rest) = Except.ok (acc ++ line ++ [13, 10], rest) := by
  intro line
  induction line with
  | nil =>
    intro acc rest _ hlen
    simp only [List.length_nil] at hlen
    simp only [List.nil_append, readSizeLine]
    have hc1 : ¬ (2 ≤ (acc ++ [13]).length ∧ (acc ++ [13]).getD ((acc ++ [13]).length - 2) 0 = 13 ∧
        (13 : Nat) = 10) := by
      rintro ⟨_, _, hcontra⟩
      omega
    rw [if_neg hc1]
    have hc2 : ¬ (20 < (acc ++ [13]).length) := by
      rw [List.length_append, List.length_singleton]
      omega
    rw [if_neg hc2]
    have heq2 : acc ++ [13] ++ [10] = acc ++ [13, 10] := by simp
    have hgd : (acc ++ [13] ++ [10]).getD ((acc ++ [13] ++ [10]).length - 2) 0 = 13 := by
      rw [heq2]
      have hlen2 : (acc ++ [13, 10]).length - 2 = acc.length := by simp
      rw [hlen2, getD_append_right acc [13, 10] acc.length 0 (le_refl _)]
      simp
    have hc3 : 2 ≤ (acc ++ [13] ++ [10]).length ∧
        (acc ++ [13] ++ [10]).getD ((acc ++ [13] ++ [10]).length - 2) 0 = 13 ∧ True :=
      ⟨by simp, hgd, trivial⟩
    rw [if_pos hc3, heq2]
    simp only [List.append_nil]

  | cons b0 t ih =>
    intro acc rest hnl hlen
    simp only [List.length_cons] at hlen
    simp only [List.cons_append, readSizeLine]
    have hb0 : b0 ≠ 10 := hnl b0 (by simp)
    have hc1 : ¬ (2 ≤ (acc ++ [b0]).length ∧ (acc ++ [b0]).getD ((acc ++ [b0]).length - 2) 0 = 13 ∧
        b0 = 10) := by
      rintro ⟨_, _, hcontra⟩
      exact hb0 hcontra
    rw [if_neg hc1]
    have hc2 : ¬ (20 < (acc ++ [b0]).length) := by
      rw [List.length_append, List.length_singleton]
      omega
    rw [if_neg hc2]
    have hih := ih (acc ++ [b0]) rest (fun b hb => hnl b (by simp [hb]))
      (by rw [List.length_append, List.length_singleton]; omega)
    have heq3 : acc ++ [b0] ++ t ++ [13, 10] = acc ++ b0 :: t ++ [13, 10] := by simp
    rw [← heq3]
    exact hih

theorem toHexBytes_ne_10 (n : Nat) : ∀ b ∈ toHexBytes n, b ≠ 10 := by
  intro b hb
  have := toHexBytes_range n b hb
  omega

theorem toHexBytes_len20 (n : Nat) (hn : n ≤ 10485760) :
    (toHexBytes n).length + 1 ≤ 20 := by
  have := toHexBytes_length 6 n (by norm_num; omega)
  omega

theorem encodeChunked_cons (c : List Nat) (t : List (List Nat)) :
    encodeChunked (c :: t) =
      toHexBytes c.length ++ 13 :: 10 :: (c ++ 13 :: 10 :: encodeChunked t) := by
  simp [encodeChunked, encodeChunk]

theorem length_le_encodeChunked (chunks : List (List Nat)) :
    chunks.length ≤ (encodeChunked chunks).length := by
  induction chunks with
  | nil => simp [encodeChunked]
  | cons c t ih =>
    rw [encodeChunked_cons]
    simp only [List.length_cons, List.length_append, List.length_cons]
    omega

theorem readChunkedAux_encode : ∀ (chunks : List (List Nat)) (body : List Nat) (fuel : Nat),
    chunks.length < fuel →
    (∀ c ∈ chunks, c ≠ []) →
    body.length + chunks.flatten.length ≤ 10485760 →
    readChunkedAux fuel (encodeChunked chunks) body = Except.ok (body ++ chunks.flatten) := by
  intro chunks
  induction chunks with
  | nil =>
    intro body fuel hfuel _ _
    cases fuel with
    | zero => omega
    | succ f =>
      have h1 : readChunkedAux (f + 1) (encodeChunked []) body = Except.ok body := rfl
      rw [h1]
      simp
  | cons c t ih =>
    intro body fuel hfuel hne hcap
    have hcne : c ≠ [] := hne c (by simp)
    have hcpos : 0 < c.length := List.length_pos.mpr hcne
    simp only [List.flatten_cons, List.length_append] at hcap
    cases fuel with
    | zero => omega
    | succ f =>
      have hcle : c.length ≤ 10485760 := by omega
      simp only [readChunkedAux]
      rw [encodeChunked_cons,
        readSizeLine_exact (toHexBytes c.length) [] _ (toHexBytes_ne_10 c.length)
          (by have := toHexBytes_len20 c.length hcle; simp; omega)]
      simp only [List.nil_append]
      have hlen3 : (toHexBytes c.length ++ [13, 10]).length - 2 = (toHexBytes c.length).length := by
        simp
      rw [hlen3, List.take_left' rfl]
      have hall59 : ∀ b ∈ toHexBytes c.length, (b != 59) = true := by
        intro b hb
        have := toHexBytes_range c.length b hb
        simp
        omega
      rw [takeWhile_eq_self_of_all _ _ hall59]
      have hallws : ∀ b ∈ toHexBytes c.length, isWsByte b = false := by
        intro b hb
        have := toHexBytes_range c.length b hb
        simp [isWsByte]
        omega
      rw [trimBytes_of_all _ hallws, parseHex_toHexBytes]
      have hc0 : ¬ (c.length = 0) := by omega
      have hcap2 : ¬ (10485760 < body.length + c.length) := by omega
      have hrest : c ++ 13 :: 10 :: encodeChunked t = (c ++ [13, 10]) ++ encodeChunked t := by
        simp
      have hlc2 : (c ++ [13, 10]).length = c.length + 2 := by simp
      have hlenrest : ¬ ((c ++ 13 :: 10 :: encodeChunked t).length < c.length + 2) := by
        simp
      simp only [if_neg hc0, if_neg hcap2, if_neg hlenrest]
      rw [hrest, List.drop_left' hlc2]
      have htake : ((c ++ [13, 10]) ++ encodeChunked t).take c.length = c := by
        rw [List.append_assoc, List.take_left' rfl]
      rw [htake]
      have hf1 : t.length < f := by
        simp only [List.length_cons] at hfuel
        omega
      have hf3 : (body ++ c).length + t.flatten.length ≤ 10485760 := by
        simp only [List.length_append]
        omega
      rw [ih (body ++ c) f hf1 (fun x hx => hne x (by simp [hx])) hf3]
      simp

/-- Claim C4: for every well-formed chunked-encoded input stream (nonempty
chunks, cumulative size within the 10 MiB cap), read_chunked_body returns
the concatenation of the chunk payloads in order, stopping at the zero-size
terminator chunk after a fixed 2-byte skip. -/
theorem c4_prop (chunks : List (List Nat))
    (hne : ∀ c ∈ chunks, c ≠ [])
    (hcap : chunks.flatten.length ≤ 10485760) :
    read_chunked_body (encodeChunked chunks) = Except.ok chunks.flatten := by
  unfold read_chunked_body
  rw [readChunkedAux_encode chunks [] ((encodeChunked chunks).length + 1)
    (by have := length_le_encodeChunked chunks; omega) hne (by simpa using hcap)]
  simp

/-- Witness for claim C4: the stream "4 CRLF Wiki CRLF 5 CRLF pedia CRLF
0 CRLF CRLF" decodes to the body "Wikipedia". -/
theorem c4_witness :
    encodeChunked [[87, 105, 107, 105], [112, 101, 100, 105, 97]] =
      asciiBytes "4\r\nWiki\r\n5\r\npedia\r\n0\r\n\r\n" ∧
    ([[87, 105, 107, 105], [112, 101, 100, 105, 97]] : List (List Nat)).flatten =
      asciiBytes "Wikipedia" ∧
    read_chunked_body (asciiBytes "4\r\nWiki\r\n5\r\npedia\r\n0\r\n\r\n") =
      Except.ok (asciiBytes "Wikipedia") := by
  refine ⟨by decide, by decide, ?_⟩
  have h := c4_prop [[87, 105, 107, 105], [112, 101, 100, 105, 97]] (by decide) (by decide)
  rw [show asciiBytes "4\r\nWiki\r\n5\r\npedia\r\n0\r\n\r\n" =
    encodeChunked [[87, 105, 107, 105], [112, 101, 100, 105, 97]] from by decide, h]
  decide
